import Mathlib

/-!
Verification of the FX hedging case study (fx-hedging-case-study).

Shallow embedding of the Python sources:
* `src/utils.py` : `interpolate_rate` (a wrapper around `np.interp`);
* `src/metrics.py` : `calculate_npv`, `calculate_var`, `calculate_cvar`
  (`np.percentile` with the default linear interpolation);
* `src/models.py` : `simulate_heston_paths` and the per-date step extraction
  of `simulate_fx_for_dates`;
* `src/hedging.py` : `black_scholes_price`, `OptionHedge`, `CollarHedge`;
* `config.py` : the yield-curve tables and cash-flow schedule.

Floating-point arithmetic is embedded as exact arithmetic (`ℚ` where the
claims are decided by computation, `ℝ` where transcendental functions
appear).  Dates are embedded as the integer day offset from
`ANALYSIS_DATE` (2025-08-01), which is what the Python code computes with
`(d - ANALYSIS_DATE).days`.  A scenario mapping `dict[date, np.ndarray]`
is embedded as `ℤ → Option (ℕ → ℝ)` (a key may be absent; a vector over
the `N_SIMS` scenarios is a function of the scenario index).  Python
exceptions are embedded with `Except`.
-/

open MeasureTheory Set

namespace FxCase

/-- Python exceptions that the embedded code can raise.  `keyError` is what
`simulated_fx[cf_date]` raises for a missing date (the spec calls it
`MissingScenarioError`); `typeError` is what a call with a missing required
positional argument raises. -/
inductive PyErr where
  | keyError : PyErr
  | typeError : PyErr
deriving DecidableEq

/-! ### src/utils.py -/

/-- Embedding of `np.interp(x, xp, fp)` on an association list of
`(maturity, rate)` pairs (the order in which `list(rate_curve.keys())` and
`list(rate_curve.values())` produce them): flat below the first maturity and
above the last one, linear interpolation between two bracketing maturities.
`np.interp` raises on an empty table; the embedding returns `0` there, a case
no claim exercises. -/
def np_interp {α : Type} [LinearOrderedField α] (x : α) : List (α × α) → α
  | [] => 0
  | [p] => p.2
  | p :: q :: rest =>
      if x ≤ p.1 then p.2
      else if x ≤ q.1 then p.2 + (q.2 - p.2) * (x - p.1) / (q.1 - p.1)
      else np_interp x (q :: rest)

/-- Embedding of `interpolate_rate(maturity, rate_curve)` from `src/utils.py`:
it just calls `np.interp` on the curve's keys and values. -/
def interpolate_rate {α : Type} [LinearOrderedField α] (maturity : α)
    (rate_curve : List (α × α)) : α :=
  np_interp maturity rate_curve

/-! ### config.py -/

/-- `USD_RATES` from `config.py`, over `ℝ`. -/
noncomputable def USD_RATES : List (ℝ × ℝ) :=
  [(0.25, 0.0435), (1.0, 0.0387), (2.0, 0.0369), (5.0, 0.0377), (10.0, 0.0423)]

/-- `EUR_RATES` from `config.py`, over `ℝ`. -/
noncomputable def EUR_RATES : List (ℝ × ℝ) :=
  [(0.25, 0.0200), (1.0, 0.0210), (2.0, 0.0223), (5.0, 0.0250), (10.0, 0.0278)]

/-- `CASH_FLOWS` from `config.py`, each date replaced by its day offset from
`ANALYSIS_DATE` = 2025-08-01: 2025-10-01 ↦ 61, 2026-10-01 ↦ 426,
2027-10-01 ↦ 791, 2029-10-01 ↦ 1522, 2030-10-01 ↦ 1887. -/
noncomputable def CASH_FLOWS : List (ℤ × ℝ) :=
  [(61, -10000000), (426, 1000000), (791, 1000000), (1522, 1000000), (1887, 11000000)]

/-! ### src/metrics.py : calculate_npv

The body of `calculate_npv` reads, per cash flow,
```
fx_rates = simulated_fx[cf_date]
usd_amount = eur_amount * fx_rates
years = (cf_date - ANALYSIS_DATE).days / 365.0
rate = interpolate_rate(years)
...
```
`interpolate_rate` (src/utils.py) takes two required positional arguments
`(maturity, rate_curve)`; the call `interpolate_rate(years)` passes only one,
so Python raises `TypeError` as soon as the first cash flow is processed and
its date was found in `simulated_fx` (a missing date raises `KeyError` first,
at the subscript on the line above). -/

/-- Loop body of `calculate_npv`: for the first cash flow, the subscript
`simulated_fx[cf_date]` either raises `KeyError` (date absent) or succeeds,
after which the one-argument call `interpolate_rate(years)` raises
`TypeError`; no later iteration is reached. -/
def calculate_npv_go (simulated_fx : ℤ → Option (ℕ → ℝ)) :
    List (ℤ × ℝ) → (ℕ → ℝ) → Except PyErr (ℕ → ℝ)
  | [], npv => .ok npv
  | fc :: _, _ =>
      match simulated_fx fc.1 with
      | none => .error .keyError
      | some _ => .error .typeError

/-- Embedding of `calculate_npv(simulated_fx, cash_flows)` from
`src/metrics.py`. -/
def calculate_npv (simulated_fx : ℤ → Option (ℕ → ℝ))
    (cash_flows : List (ℤ × ℝ)) : Except PyErr (ℕ → ℝ) :=
  calculate_npv_go simulated_fx cash_flows (fun _ => 0)

/-! ### src/models.py : simulate_heston_paths -/

/-- The parameters of `simulate_heston_paths` (its positional arguments other
than `years`; `dt` defaults to `1/252`). -/
structure HestonParams where
  spot : ℝ
  v0 : ℝ
  kappa : ℝ
  theta : ℝ
  xi : ℝ
  rho : ℝ
  r_domestic : ℝ
  r_foreign : ℝ
  dt : ℝ

/-- One iteration of the loop in `simulate_heston_paths`, for one scenario:
`sv` is the pair (previous rate, previous variance state), `z1` and `z2` the
two standard-normal draws of this step.  Mirrors
```
dw_spot = z1
dw_var = rho * z1 + np.sqrt(1 - rho**2) * z2
var_pos = np.maximum(var_paths[i-1], 0)
drift = (r_domestic - r_foreign - 0.5 * var_pos) * dt
diffusion = np.sqrt(var_pos * dt) * dw_spot
spot_paths[i] = spot_paths[i-1] * np.exp(drift + diffusion)
var_paths[i] = var_paths[i-1] + kappa * (theta - var_pos) * dt
               + xi * np.sqrt(var_pos * dt) * dw_var
```
-/
noncomputable def hestonStep (p : HestonParams) (sv : ℝ × ℝ) (z1 z2 : ℝ) : ℝ × ℝ :=
  let dw_spot := z1
  let dw_var := p.rho * z1 + Real.sqrt (1 - p.rho ^ 2) * z2
  let var_pos := max sv.2 0
  let drift := (p.r_domestic - p.r_foreign - 0.5 * var_pos) * p.dt
  let diffusion := Real.sqrt (var_pos * p.dt) * dw_spot
  (sv.1 * Real.exp (drift + diffusion),
   sv.2 + p.kappa * (p.theta - var_pos) * p.dt + p.xi * Real.sqrt (var_pos * p.dt) * dw_var)

/-- The (rate, variance) pair of one scenario of `simulate_heston_paths`
after `i` steps; `z1 j`, `z2 j` are the draws of step `j` (`j ≥ 1`).  Row `0`
is the initialization `spot_paths[0] = spot`, `var_paths[0] = v0`. -/
noncomputable def hestonPath (p : HestonParams) (z1 z2 : ℕ → ℝ) : ℕ → ℝ × ℝ
  | 0 => (p.spot, p.v0)
  | i + 1 => hestonStep p (hestonPath p z1 z2 i) (z1 (i + 1)) (z2 (i + 1))

/-- Entry `(i, n)` of the `spot_paths` array returned by
`simulate_heston_paths`: step `i`, scenario `n`; `z1 i n` / `z2 i n` are the
draws of step `i` in scenario `n`. -/
noncomputable def spot_paths (p : HestonParams) (z1 z2 : ℕ → ℕ → ℝ) (i n : ℕ) : ℝ :=
  (hestonPath p (fun j => z1 j n) (fun j => z2 j n) i).1

/-- Entry `(i, n)` of the `var_paths` array returned by
`simulate_heston_paths`. -/
noncomputable def var_paths (p : HestonParams) (z1 z2 : ℕ → ℕ → ℝ) (i n : ℕ) : ℝ :=
  (hestonPath p (fun j => z1 j n) (fun j => z2 j n) i).2

/-- The clamped variance `var_pos = np.maximum(var_paths[i-1], 0)` that step
`i` of `simulate_heston_paths` feeds into its drift and diffusion terms. -/
noncomputable def var_used (p : HestonParams) (z1 z2 : ℕ → ℕ → ℝ) (i n : ℕ) : ℝ :=
  max (var_paths p z1 z2 i n) 0

/-! ### src/models.py : simulate_fx_for_dates, date-to-step extraction -/

/-- Python `int()` applied to a rational value: truncation toward zero. -/
def pyInt (q : ℚ) : ℤ :=
  if 0 ≤ q then ⌊q⌋ else ⌈q⌉

/-- Embedding of the step extraction in `simulate_fx_for_dates`:
`step = int(days / 365.0 / dt)` with `dt = 1/252`, where `days` is the day
offset of the requested settlement date from `ANALYSIS_DATE`. -/
def fx_date_step (days : ℤ) : ℤ :=
  pyInt ((days : ℚ) / 365 / (1 / 252))

/-! ### src/metrics.py : calculate_var / calculate_cvar -/

/-- The ascending sort that `np.percentile` performs on its input. -/
def pySort (l : List ℚ) : List ℚ :=
  List.insertionSort (· ≤ ·) l

/-- Embedding of `np.percentile(a, q)` with the default linear interpolation
between order statistics: with `s` the ascending sort of the data and
`rank = q/100 * (len(s) - 1)`, the result is
`s[⌊rank⌋] + (rank - ⌊rank⌋) * (s[⌈rank⌉] - s[⌊rank⌋])`. -/
def np_percentile (l : List ℚ) (q : ℚ) : ℚ :=
  let s := pySort l
  let rank := q / 100 * ((s.length : ℚ) - 1)
  s.getD ⌊rank⌋.toNat 0 + (rank - ⌊rank⌋) * (s.getD ⌈rank⌉.toNat 0 - s.getD ⌊rank⌋.toNat 0)

/-- Embedding of `calculate_var(npv_distribution, confidence)` from
`src/metrics.py`: `np.percentile(npv_distribution, (1 - confidence) * 100)`. -/
def calculate_var (npv_distribution : List ℚ) (confidence : ℚ) : ℚ :=
  np_percentile npv_distribution ((1 - confidence) * 100)

/-- The mean of a list, as `np.ndarray.mean` computes it (`0/0 = 0` stands in
for the `NaN` of an empty mean, a case the claims avoid). -/
def listMean (l : List ℚ) : ℚ :=
  l.sum / l.length

/-- Embedding of `calculate_cvar(npv_distribution, confidence)` from
`src/metrics.py`: the mean of the entries at or below the VaR threshold. -/
def calculate_cvar (npv_distribution : List ℚ) (confidence : ℚ) : ℚ :=
  listMean (npv_distribution.filter
    (fun x => decide (x ≤ calculate_var npv_distribution confidence)))

/-- The "(1−c)-quantile under linear interpolation between order statistics"
in the words of the spec: for `p ∈ (0,1)`, the interpolated value at rank
`p·(n−1)` of the order statistics (the ascending sort) of the data.  Stated
independently of `np_percentile` to compare the two. -/
def quantileOrderStat (l : List ℚ) (p : ℚ) : ℚ :=
  let s := pySort l
  let r := p * ((s.length : ℚ) - 1)
  s.getD ⌊r⌋.toNat 0 + (r - ⌊r⌋) * (s.getD ⌈r⌉.toNat 0 - s.getD ⌊r⌋.toNat 0)

/-! ### src/hedging.py : black_scholes_price -/

/-- The `option_type` argument of `black_scholes_price`.  The Python code
compares with the string `call` and treats anything else as a put. -/
inductive OptionKind where
  | call : OptionKind
  | put : OptionKind
deriving DecidableEq

/-- Density of the standard normal distribution (the distribution behind
`scipy.stats.norm`). -/
noncomputable def normPdf (t : ℝ) : ℝ :=
  (Real.sqrt (2 * Real.pi))⁻¹ * Real.exp (-(t ^ 2) / 2)

/-- `scipy.stats.norm.cdf`: the cumulative distribution function of the
standard normal distribution. -/
noncomputable def normCdf (x : ℝ) : ℝ :=
  ∫ t in Iic x, normPdf t

/-- Embedding of `black_scholes_price(rate_spot, K, T, domestic_rate,
foreign_rate, sigma, option_type)` from `src/hedging.py`. -/
noncomputable def black_scholes_price (rate_spot K T domestic_rate foreign_rate sigma : ℝ)
    (option_type : OptionKind) : ℝ :=
  let d1 := (Real.log (rate_spot / K) + (domestic_rate - foreign_rate + 0.5 * sigma ^ 2) * T)
      / (sigma * Real.sqrt T)
  let d2 := d1 - sigma * Real.sqrt T
  match option_type with
  | .call => rate_spot * Real.exp (-foreign_rate * T) * normCdf d1
      - K * Real.exp (-domestic_rate * T) * normCdf d2
  | .put => K * Real.exp (-domestic_rate * T) * normCdf (-d2)
      - rate_spot * Real.exp (-foreign_rate * T) * normCdf (-d1)

/-! ### src/hedging.py : OptionHedge -/

/-- `OptionHedge.premium_paid` as accumulated by `OptionHedge.__init__`:
for every cash flow with `eur_amount > 0`, an ATM put premium
`eur_amount * black_scholes_price(fx_spot, fx_spot, tenor, r_usd, r_eur,
vol, "put")` with `tenor = days/365.25`, rates interpolated from the USD and
EUR curves and the volatility interpolated from the vol surface
(`_get_vol` is `np.interp` over the surface). -/
noncomputable def optionHedge_premium (fx_spot : ℝ) (vol_surface : List (ℝ × ℝ))
    (payment_schedule : List (ℤ × ℝ)) : ℝ :=
  payment_schedule.foldr
    (fun fc acc =>
      (if 0 < fc.2 then
        let tenor := (fc.1 : ℝ) / 365.25
        let r_usd := interpolate_rate tenor USD_RATES
        let r_eur := interpolate_rate tenor EUR_RATES
        let volatility := np_interp tenor vol_surface
        fc.2 * black_scholes_price fx_spot fx_spot tenor r_usd r_eur volatility .put
      else 0) + acc) 0

/-- Loop of `OptionHedge.hedge`: per cash flow, look the date up in the
scenario dict (`KeyError` if absent), convert at `max(fx, spot)` for positive
notionals and at the raw simulated rate otherwise, and discount at the USD
rate for `tenor = days/365.25`. -/
noncomputable def optionHedge_hedge_go (fx_spot : ℝ) (simulated_fx : ℤ → Option (ℕ → ℝ)) :
    List (ℤ × ℝ) → (ℕ → ℝ) → Except PyErr (ℕ → ℝ)
  | [], present_value => .ok present_value
  | fc :: rest, present_value =>
      match simulated_fx fc.1 with
      | none => .error .keyError
      | some fx_rates =>
          let usd_proceeds : ℕ → ℝ :=
            if 0 < fc.2 then fun n => fc.2 * max (fx_rates n) fx_spot
            else fun n => fc.2 * fx_rates n
          let tenor := (fc.1 : ℝ) / 365.25
          let discount_rate := interpolate_rate tenor USD_RATES
          let discount_factor := Real.exp (-discount_rate * tenor)
          optionHedge_hedge_go fx_spot simulated_fx rest
            (fun n => present_value n + usd_proceeds n * discount_factor)

/-- Embedding of `OptionHedge.hedge(simulated_fx)` for an `OptionHedge`
constructed from `(fx_spot, vol_surface, payment_schedule)`: the discounted
protected proceeds minus the premium paid at construction. -/
noncomputable def optionHedge_hedge (fx_spot : ℝ) (vol_surface : List (ℝ × ℝ))
    (payment_schedule : List (ℤ × ℝ)) (simulated_fx : ℤ → Option (ℕ → ℝ)) :
    Except PyErr (ℕ → ℝ) :=
  (optionHedge_hedge_go fx_spot simulated_fx payment_schedule (fun _ => 0)).map
    (fun pv n => pv n - optionHedge_premium fx_spot vol_surface payment_schedule)

/-! ### src/hedging.py : CollarHedge -/

/-- `CollarHedge.net_cost` as accumulated by `CollarHedge.__init__`: for
every cash flow with `notional > 0`, `abs(notional) * (put_cost -
call_proceeds)` with the put struck at `current_spot * put_level`, the call
at `current_spot * call_level`, both priced with the interpolated USD/EUR
rates and the interpolated volatility at `years_to_expiry = days/365.25`. -/
noncomputable def collarHedge_net_cost (current_spot : ℝ) (market_vols : List (ℝ × ℝ))
    (cash_flows : List (ℤ × ℝ)) (put_level call_level : ℝ) : ℝ :=
  cash_flows.foldr
    (fun fc acc =>
      (if 0 < fc.2 then
        let years_to_expiry := (fc.1 : ℝ) / 365.25
        let domestic_r := interpolate_rate years_to_expiry USD_RATES
        let foreign_r := interpolate_rate years_to_expiry EUR_RATES
        let implied_vol := np_interp years_to_expiry market_vols
        let put_cost := black_scholes_price current_spot (current_spot * put_level)
          years_to_expiry domestic_r foreign_r implied_vol .put
        let call_proceeds := black_scholes_price current_spot (current_spot * call_level)
          years_to_expiry domestic_r foreign_r implied_vol .call
        |fc.2| * (put_cost - call_proceeds)
      else 0) + acc) 0

/-- Loop of `CollarHedge.hedge`: per cash flow, look the date up
(`KeyError` if absent), convert at `np.clip(fx, put_strike, call_strike)` =
`min(max(fx, put_strike), call_strike)` for positive notionals and at the
raw simulated rate otherwise, and discount at the USD rate for
`years_to_expiry = days/365.25`. -/
noncomputable def collarHedge_hedge_go (put_strike call_strike : ℝ)
    (fx_scenarios : ℤ → Option (ℕ → ℝ)) :
    List (ℤ × ℝ) → (ℕ → ℝ) → Except PyErr (ℕ → ℝ)
  | [], npv_result => .ok npv_result
  | fc :: rest, npv_result =>
      match fx_scenarios fc.1 with
      | none => .error .keyError
      | some scenario_rates =>
          let usd_converted : ℕ → ℝ :=
            if 0 < fc.2 then fun n => fc.2 * min (max (scenario_rates n) put_strike) call_strike
            else fun n => fc.2 * scenario_rates n
          let years_to_expiry := (fc.1 : ℝ) / 365.25
          let disc_rate := interpolate_rate years_to_expiry USD_RATES
          let pv_factor := Real.exp (-disc_rate * years_to_expiry)
          collarHedge_hedge_go put_strike call_strike fx_scenarios rest
            (fun n => npv_result n + usd_converted n * pv_factor)

/-- Embedding of `CollarHedge.hedge(fx_scenarios)` for a `CollarHedge`
constructed from `(current_spot, market_vols, cash_flows, put_level,
call_level)` (the source defaults are `put_level = 0.95`,
`call_level = 1.05`): the discounted collared proceeds minus the net cost. -/
noncomputable def collarHedge_hedge (current_spot : ℝ) (market_vols : List (ℝ × ℝ))
    (cash_flows : List (ℤ × ℝ)) (put_level call_level : ℝ)
    (fx_scenarios : ℤ → Option (ℕ → ℝ)) : Except PyErr (ℕ → ℝ) :=
  (collarHedge_hedge_go (current_spot * put_level) (current_spot * call_level)
      fx_scenarios cash_flows (fun _ => 0)).map
    (fun pv n => pv n - collarHedge_net_cost current_spot market_vols cash_flows
      put_level call_level)

/-- The NPV the spec's ExposureValuer contract describes, at the hedges' own
day count: `notional × simulated rate` unconditionally per cash-flow date,
discounted at the USD curve's interpolated rate for `t = days/365.25`,
summed across dates, elementwise across scenarios.  Absent dates contribute
through the zero vector; the theorems only use it when every date is
present. -/
noncomputable def npvSignedSum (simulated_fx : ℤ → Option (ℕ → ℝ)) :
    List (ℤ × ℝ) → ℕ → ℝ
  | [] => fun _ => 0
  | fc :: rest => fun n =>
      fc.2 * (simulated_fx fc.1).getD (fun _ => 0) n *
        Real.exp (-(interpolate_rate ((fc.1 : ℝ) / 365.25) USD_RATES) * ((fc.1 : ℝ) / 365.25))
      + npvSignedSum simulated_fx rest n

/-!
## Theorems
-/

/-- C3: for every step of the path simulator and every scenario, with `v⁻`
the previous variance state and `v⁺ = max(v⁻, 0)`, the new rate equals the
previous rate times `exp((r_domestic − r_foreign − ½·v⁺)·dt + √(v⁺·dt)·z₁)`,
and the new variance state equals
`v⁻ + kappa·(theta − v⁺)·dt + xi·√(v⁺·dt)·(rho·z₁ + √(1 − rho²)·z₂)`:
the clamped variance enters every drift/diffusion term, the unclamped value
is carried forward as state. -/
theorem heston_step_recurrence (p : HestonParams) (z1 z2 : ℕ → ℕ → ℝ) (i n : ℕ) :
    spot_paths p z1 z2 (i + 1) n =
      spot_paths p z1 z2 i n *
        Real.exp ((p.r_domestic - p.r_foreign - 1 / 2 * max (var_paths p z1 z2 i n) 0) * p.dt
          + Real.sqrt (max (var_paths p z1 z2 i n) 0 * p.dt) * z1 (i + 1) n) ∧
    var_paths p z1 z2 (i + 1) n =
      var_paths p z1 z2 i n + p.kappa * (p.theta - max (var_paths p z1 z2 i n) 0) * p.dt
        + p.xi * Real.sqrt (max (var_paths p z1 z2 i n) 0 * p.dt)
          * (p.rho * z1 (i + 1) n + Real.sqrt (1 - p.rho ^ 2) * z2 (i + 1) n) := by
  constructor
  · simp only [spot_paths, var_paths, hestonPath, hestonStep]
    try norm_num
  · simp only [spot_paths, var_paths, hestonPath, hestonStep]
    try norm_num

/-- C10: every entry of the rate-path array is strictly positive whenever the
initial spot is: each step multiplies the previous rate by an exponential
factor. -/
theorem spot_paths_pos (p : HestonParams) (hspot : 0 < p.spot) (hrho : |p.rho| ≤ 1)
    (z1 z2 : ℕ → ℕ → ℝ) (i n : ℕ) : 0 < spot_paths p z1 z2 i n := by
  induction i with
  | zero => simpa [spot_paths, hestonPath] using hspot
  | succ i ih =>
      simp only [spot_paths, hestonPath, hestonStep] at ih ⊢
      exact mul_pos ih (Real.exp_pos _)

/-- Parameter set used to instantiate the positivity theorem: the calibration
initial guess `v0 = 0.04, kappa = 2, theta = 0.04, xi = 0.3, rho = -0.7` with
`spot = 1.1`, the 5Y rates of the two curves, and the default `dt = 1/252`. -/
noncomputable def hestonParamsEx : HestonParams :=
  ⟨1.1, 0.04, 2, 0.04, 0.3, -0.7, 0.0377, 0.025, 1 / 252⟩

/-- C10 witness: the hypotheses hold for `hestonParamsEx` and the theorem
applies to it. -/
theorem spot_paths_pos_witness :
    0 < hestonParamsEx.spot ∧ |hestonParamsEx.rho| ≤ 1 ∧
      0 < spot_paths hestonParamsEx (fun _ _ => 0) (fun _ _ => 0) 2 0 := by
  refine ⟨by norm_num [hestonParamsEx], by norm_num [hestonParamsEx, abs_le], ?_⟩
  exact spot_paths_pos hestonParamsEx (by norm_num [hestonParamsEx])
    (by norm_num [hestonParamsEx, abs_le]) (fun _ _ => 0) (fun _ _ => 0) 2 0

/-- Valid parameter set (`v0 > 0`, `kappa > 0`, `theta > 0`, `xi > 0`,
`|rho| < 1`, positive spot and rates) under which the variance array acquires
a negative entry after one step when the variance draw is `-100`. -/
noncomputable def hestonParamsCx : HestonParams :=
  ⟨1.1, 0.04, 1, 0.04, 1, 0, 0.0377, 0.025, 1 / 252⟩

/-- C4 counterexample: for the valid parameter set `hestonParamsCx`
(`v0 = 0.04 > 0`, `kappa = 1 > 0`, `theta = 0.04 > 0`, `xi = 1 > 0`,
`|rho| = 0 < 1`, positive spot and rates) and the draw sequence
`z1 = 0`, `z2 = -100`, the variance entry at step 1 is negative:
`0.04 + 1·(0.04 − 0.04)·dt + 1·√(0.04·dt)·(−100) < 0` for `dt = 1/252`. -/
theorem var_paths_negative_entry :
    var_paths hestonParamsCx (fun _ _ => 0) (fun _ _ => -100) 1 0 < 0 := by
  simp only [var_paths, hestonPath, hestonStep, hestonParamsCx]
  have hmax : max (0.04 : ℝ) 0 = 0.04 := by norm_num
  rw [hmax]
  have h1 : (1 : ℝ) - 0 ^ 2 = 1 := by norm_num
  rw [h1, Real.sqrt_one]
  have hs : (0.0004 : ℝ) < Real.sqrt (0.04 * (1 / 252)) := by
    rw [Real.lt_sqrt (by norm_num)]
    norm_num
  nlinarith [hs]

/-- C4 amended: the variance state array may contain negative entries (see
the counterexample), but the clamped variance `var_pos = max(var, 0)` that
every drift and diffusion term actually consumes is non-negative at every
step and scenario, and row 0 of the variance array is exactly `v0`. -/
theorem var_used_nonneg (p : HestonParams) (z1 z2 : ℕ → ℕ → ℝ) (i n : ℕ) :
    0 ≤ var_used p z1 z2 i n ∧ var_paths p z1 z2 0 n = p.v0 :=
  ⟨le_max_right _ _, rfl⟩

/-- C5 counterexample: a settlement date 1 day after the analysis date has
elapsed-year offset `1/365` and grid spacing `dt = 1/252`; the code's
extraction `int(days/365.0/dt)` selects step 0, yet grid time `1·dt` is
strictly closer to `1/365` than grid time `0·dt` is, so the selected index is
not the nearest one — the code truncates instead of rounding. -/
theorem fx_date_step_not_nearest :
    fx_date_step 1 = 0 ∧
      |(1 : ℚ) / 365 - 1 * (1 / 252)| < |(1 : ℚ) / 365 - 0 * (1 / 252)| := by
  constructor
  · norm_num [fx_date_step, pyInt]
  · have h1 : (1 : ℚ) / 365 - 1 * (1 / 252) = -(113 / 91980) := by norm_num
    have h2 : (1 : ℚ) / 365 - 0 * (1 / 252) = 1 / 365 := by norm_num
    rw [h1, h2, abs_neg, abs_of_pos (by norm_num), abs_of_pos (by norm_num)]
    norm_num

/-- C5 amended: for every requested date on or after the analysis date, the
extraction selects the largest step index whose grid time does not exceed the
date's elapsed-year offset (truncation toward zero of `days/365.0/dt`),
rather than the index nearest to the offset. -/
theorem fx_date_step_truncates (days : ℤ) (h : 0 ≤ days) :
    (fx_date_step days : ℚ) * (1 / 252) ≤ (days : ℚ) / 365 ∧
      (days : ℚ) / 365 < ((fx_date_step days : ℚ) + 1) * (1 / 252) := by
  have hq : (0 : ℚ) ≤ (days : ℚ) / 365 / (1 / 252) := by positivity
  have hstep : fx_date_step days = ⌊(days : ℚ) / 365 / (1 / 252)⌋ := by
    unfold fx_date_step pyInt
    exact if_pos hq
  have hle : (⌊(days : ℚ) / 365 / (1 / 252)⌋ : ℚ) ≤ (days : ℚ) / 365 / (1 / 252) :=
    Int.floor_le _
  have hlt : (days : ℚ) / 365 / (1 / 252) < (⌊(days : ℚ) / 365 / (1 / 252)⌋ : ℚ) + 1 :=
    Int.lt_floor_add_one _
  constructor
  · rw [hstep]
    calc (⌊(days : ℚ) / 365 / (1 / 252)⌋ : ℚ) * (1 / 252)
        ≤ ((days : ℚ) / 365 / (1 / 252)) * (1 / 252) := by
          exact mul_le_mul_of_nonneg_right hle (by norm_num)
      _ = (days : ℚ) / 365 := by ring
  · rw [hstep]
    calc (days : ℚ) / 365 = ((days : ℚ) / 365 / (1 / 252)) * (1 / 252) := by ring
      _ < ((⌊(days : ℚ) / 365 / (1 / 252)⌋ : ℚ) + 1) * (1 / 252) := by
          exact mul_lt_mul_of_pos_right hlt (by norm_num)

/-- C5 amended witness: the amended theorem applied at `days = 1`. -/
theorem fx_date_step_truncates_witness :
    (0 : ℤ) ≤ 1 ∧
      ((fx_date_step 1 : ℚ) * (1 / 252) ≤ (1 : ℚ) / 365 ∧
        (1 : ℚ) / 365 < ((fx_date_step 1 : ℚ) + 1) * (1 / 252)) :=
  ⟨by decide, fx_date_step_truncates 1 (by decide)⟩

lemma normPdf_eq :
    normPdf = fun t : ℝ => (Real.sqrt (2 * Real.pi))⁻¹ * Real.exp (-(1 / 2) * t ^ 2) := by
  funext t
  simp only [normPdf]
  congr 1
  ring

lemma normPdf_integrable : Integrable normPdf := by
  rw [normPdf_eq]
  exact (integrable_exp_neg_mul_sq (by norm_num)).const_mul _

lemma normPdf_total : ∫ t, normPdf t = 1 := by
  rw [normPdf_eq]
  rw [integral_mul_left, integral_gaussian]
  have hπ : Real.pi / (1 / 2) = 2 * Real.pi := by ring
  rw [hπ]
  exact inv_mul_cancel₀ (Real.sqrt_ne_zero'.mpr (by positivity))

lemma normPdf_even : (fun t : ℝ => normPdf (-t)) = normPdf := by
  funext t
  simp [normPdf, neg_sq]

/-- The standard normal CDF satisfies `Φ(-x) = 1 - Φ(x)`. -/
lemma normCdf_neg (x : ℝ) : normCdf (-x) = 1 - normCdf x := by
  have hint := normPdf_integrable
  have h1 : (∫ t in Iic (-x), normPdf t) = ∫ t in Ioi x, normPdf t := by
    have h0 := integral_comp_neg_Iic (-x) normPdf
    rw [normPdf_even, neg_neg] at h0
    exact h0
  have hsplit : (∫ t in Iic x ∪ Ioi x, normPdf t) =
      (∫ t in Iic x, normPdf t) + ∫ t in Ioi x, normPdf t :=
    setIntegral_union (Iic_disjoint_Ioi (le_refl x)) measurableSet_Ioi
      hint.integrableOn hint.integrableOn
  rw [Iic_union_Ioi, setIntegral_univ, normPdf_total] at hsplit
  simp only [normCdf]
  rw [h1]
  linarith [hsplit]

/-- C1: the option pricer satisfies exact put–call parity over real
arithmetic: for positive spot, strike, expiry and volatility and any two
rates, `call − put = spot·e^(−foreign·T) − strike·e^(−domestic·T)`. -/
theorem black_scholes_put_call_parity
    (rate_spot K T domestic_rate foreign_rate sigma : ℝ)
    (hspot : 0 < rate_spot) (hK : 0 < K) (hT : 0 < T) (hsigma : 0 < sigma) :
    black_scholes_price rate_spot K T domestic_rate foreign_rate sigma .call
      - black_scholes_price rate_spot K T domestic_rate foreign_rate sigma .put
      = rate_spot * Real.exp (-foreign_rate * T) - K * Real.exp (-domestic_rate * T) := by
  simp only [black_scholes_price]
  rw [normCdf_neg, normCdf_neg]
  ring

/-- C1 witness: parity instantiated at spot = strike = 1, T = 1, zero rates,
unit volatility. -/
theorem black_scholes_put_call_parity_witness :
    (0 : ℝ) < 1 ∧
      black_scholes_price 1 1 1 0 0 1 .call - black_scholes_price 1 1 1 0 0 1 .put
        = 1 * Real.exp (-0 * 1) - 1 * Real.exp (-0 * 1) :=
  ⟨one_pos, black_scholes_put_call_parity 1 1 1 0 0 1 one_pos one_pos one_pos one_pos⟩

/-- C2: on the configured cash-flow schedule, with every settlement date
present in the scenario mapping, `calculate_npv` does not return the
discounted-sum vector: it raises `TypeError`, because its body calls
`interpolate_rate(years)` while `interpolate_rate(maturity, rate_curve)`
requires the rate-curve argument. -/
theorem calculate_npv_raises_type_error :
    calculate_npv (fun _ => some (fun _ => 1.1)) CASH_FLOWS = Except.error PyErr.typeError :=
  rfl

/-- C8: the error behavior of `calculate_npv`.  A missing first date raises
`KeyError` (the spec's `MissingScenarioError`), but a schedule whose dates
are all present still raises — `TypeError`, from the one-argument call
`interpolate_rate(years)` — and a missing second date also raises
`TypeError` rather than the missing-scenario error, because the first
iteration's `interpolate_rate(years)` call fails before the second date is
ever looked up. -/
theorem calculate_npv_error_kinds :
    calculate_npv (fun _ => none) [(61, (1 : ℝ))] = Except.error PyErr.keyError ∧
    calculate_npv (fun _ => some (fun _ => 1)) [(61, (1 : ℝ))] = Except.error PyErr.typeError ∧
    calculate_npv (fun d => if d = 61 then some (fun _ => 1) else none)
      [(61, (1 : ℝ)), (426, (1 : ℝ))] = Except.error PyErr.typeError := by
  refine ⟨rfl, rfl, ?_⟩
  simp [calculate_npv, calculate_npv_go]

/-! Interpolation lemmas: `np_interp` on a table with strictly increasing
first coordinates. -/

lemma np_interp_cons_cons {α : Type} [LinearOrderedField α] (x : α) (p q : α × α)
    (rest : List (α × α)) :
    np_interp x (p :: q :: rest) =
      if x ≤ p.1 then p.2
      else if x ≤ q.1 then p.2 + (q.2 - p.2) * (x - p.1) / (q.1 - p.1)
      else np_interp x (q :: rest) := rfl

lemma np_interp_head_le {α : Type} [LinearOrderedField α] (x : α) (p : α × α)
    (rest : List (α × α)) (hx : x ≤ p.1) : np_interp x (p :: rest) = p.2 := by
  cases rest with
  | nil => rfl
  | cons q t => rw [np_interp_cons_cons, if_pos hx]

lemma np_interp_below {α : Type} [LinearOrderedField α] :
    ∀ (curve : List (α × α)) (p : α × α) (x : α),
      curve.head? = some p → x ≤ p.1 → np_interp x curve = p.2
  | [], p, _, hp, _ => by simp at hp
  | a :: rest, p, x, hp, hx => by
      have ha : a = p := by simpa using hp
      subst ha
      exact np_interp_head_le x a rest hx

lemma chain_lt_head {α : Type} [LinearOrderedField α] :
    ∀ (b : α × α) (rest : List (α × α)),
      List.Chain' (fun u v : α × α => u.1 < v.1) (b :: rest) → ∀ p ∈ rest, b.1 < p.1
  | _, [], _, p, hp => absurd hp (List.not_mem_nil p)
  | b, c :: rest, h, p, hp => by
      have hbc : b.1 < c.1 := (List.chain'_cons.mp h).1
      rcases List.mem_cons.mp hp with rfl | hp'
      · exact hbc
      · exact hbc.trans (chain_lt_head c rest (List.chain'_cons.mp h).2 p hp')

lemma chain_lt_append {α : Type} [LinearOrderedField α] :
    ∀ (pre : List (α × α)) (a : α × α) (l : List (α × α)),
      List.Chain' (fun u v : α × α => u.1 < v.1) (pre ++ a :: l) → ∀ p ∈ pre, p.1 < a.1
  | [], _, _, _, p, hp => absurd hp (List.not_mem_nil p)
  | q :: pre, a, l, h, p, hp => by
      rcases List.mem_cons.mp hp with rfl | hp'
      · exact chain_lt_head p (pre ++ a :: l) h a
          (List.mem_append_right pre (List.mem_cons_self a l))
      · exact chain_lt_append pre a l h.tail p hp'

lemma chain_head_le_last {α : Type} [LinearOrderedField α] :
    ∀ (b : α × α) (rest : List (α × α)) (q : α × α),
      List.Chain' (fun u v : α × α => u.1 < v.1) (b :: rest) →
      (b :: rest).getLast? = some q → b.1 ≤ q.1
  | b, [], q, _, hq => by
      have hb : b = q := by simpa using hq
      exact le_of_eq (congrArg Prod.fst hb)
  | b, c :: rest, q, h, hq => by
      have hq' : (c :: rest).getLast? = some q := by simpa using hq
      exact le_of_lt (lt_of_lt_of_le (List.chain'_cons.mp h).1
        (chain_head_le_last c rest q (List.chain'_cons.mp h).2 hq'))

lemma np_interp_skip_head {α : Type} [LinearOrderedField α] :
    ∀ (pre : List (α × α)) (c : α × α) (suf : List (α × α)) (x : α),
      (∀ p ∈ pre, p.1 < x) → c.1 < x →
      np_interp x (pre ++ c :: suf) = np_interp x (c :: suf)
  | [], _, _, _, _, _ => rfl
  | [p], c, suf, x, hpre, hc => by
      rw [List.cons_append, List.nil_append, np_interp_cons_cons,
        if_neg (not_le.mpr (hpre p (List.mem_singleton_self p))), if_neg (not_le.mpr hc)]
  | p :: q :: pre, c, suf, x, hpre, hc => by
      rw [List.cons_append, List.cons_append, np_interp_cons_cons,
        if_neg (not_le.mpr (hpre p (by simp))), if_neg (not_le.mpr (hpre q (by simp))),
        ← List.cons_append]
      exact np_interp_skip_head (q :: pre) c suf x
        (fun r hr => hpre r (List.mem_cons_of_mem p hr)) hc

lemma np_interp_stored {α : Type} [LinearOrderedField α] :
    ∀ (curve : List (α × α)), List.Chain' (fun u v : α × α => u.1 < v.1) curve →
      ∀ p ∈ curve, np_interp p.1 curve = p.2
  | [], _, p, hp => absurd hp (List.not_mem_nil p)
  | [a], _, p, hp => by
      have ha : p = a := List.mem_singleton.mp hp
      subst ha
      rfl
  | a :: b :: rest, hchain, p, hp => by
      have hab : a.1 < b.1 := (List.chain'_cons.mp hchain).1
      have htail := (List.chain'_cons.mp hchain).2
      rcases List.mem_cons.mp hp with rfl | hp'
      · exact np_interp_head_le p.1 p (b :: rest) le_rfl
      rcases List.mem_cons.mp hp' with rfl | hp''
      · rw [np_interp_cons_cons, if_neg (not_le.mpr hab), if_pos le_rfl,
          mul_div_assoc, div_self (sub_ne_zero.mpr (ne_of_gt hab))]
        ring
      · have hbp : b.1 < p.1 := chain_lt_head b rest htail p hp''
        rw [np_interp_cons_cons, if_neg (not_le.mpr (hab.trans hbp)),
          if_neg (not_le.mpr hbp)]
        exact np_interp_stored (b :: rest) htail p hp'

lemma np_interp_between {α : Type} [LinearOrderedField α]
    (pre : List (α × α)) (a b : α × α) (suf : List (α × α)) (x : α)
    (hchain : List.Chain' (fun u v : α × α => u.1 < v.1) (pre ++ a :: b :: suf))
    (hax : a.1 < x) (hxb : x < b.1) :
    np_interp x (pre ++ a :: b :: suf) = a.2 + (b.2 - a.2) * (x - a.1) / (b.1 - a.1) := by
  have hpre : ∀ p ∈ pre, p.1 < x :=
    fun p hp => lt_trans (chain_lt_append pre a (b :: suf) hchain p hp) hax
  rw [np_interp_skip_head pre a (b :: suf) x hpre hax, np_interp_cons_cons,
    if_neg (not_le.mpr hax), if_pos (le_of_lt hxb)]

lemma np_interp_above {α : Type} [LinearOrderedField α] :
    ∀ (curve : List (α × α)) (q : α × α) (x : α),
      List.Chain' (fun u v : α × α => u.1 < v.1) curve →
      curve.getLast? = some q → q.1 < x → np_interp x curve = q.2
  | [], q, _, _, hq, _ => by simp at hq
  | [a], q, x, _, hq, _ => by
      have ha : a = q := by simpa using hq
      subst ha
      rfl
  | a :: b :: rest, q, x, hchain, hq, hx => by
      have hab : a.1 < b.1 := (List.chain'_cons.mp hchain).1
      have htail := (List.chain'_cons.mp hchain).2
      have hq' : (b :: rest).getLast? = some q := by simpa using hq
      have hbq : b.1 ≤ q.1 := chain_head_le_last b rest q htail hq'
      have hbx : b.1 < x := lt_of_le_of_lt hbq hx
      rw [np_interp_cons_cons, if_neg (not_le.mpr (hab.trans hbx)),
        if_neg (not_le.mpr hbx)]
      exact np_interp_above (b :: rest) q x htail hq' hx

/-- C6: on any rate curve with at least two strictly increasing maturities,
`interpolate_rate` returns the stored rate exactly at every stored maturity,
the linear interpolation between the two bracketing points strictly inside
the range, and the nearest boundary rate (flat) strictly below the minimum
and strictly above the maximum maturity. -/
theorem interpolate_rate_spec {α : Type} [LinearOrderedField α]
    (curve : List (α × α))
    (hchain : List.Chain' (fun u v : α × α => u.1 < v.1) curve)
    (hlen : 2 ≤ curve.length) :
    (∀ p ∈ curve, interpolate_rate p.1 curve = p.2) ∧
    (∀ (pre : List (α × α)) (a b : α × α) (suf : List (α × α)) (x : α),
        curve = pre ++ a :: b :: suf → a.1 < x → x < b.1 →
        interpolate_rate x curve = a.2 + (b.2 - a.2) * (x - a.1) / (b.1 - a.1)) ∧
    (∀ (x : α) (p : α × α), curve.head? = some p → x < p.1 →
        interpolate_rate x curve = p.2) ∧
    (∀ (x : α) (q : α × α), curve.getLast? = some q → q.1 < x →
        interpolate_rate x curve = q.2) := by
  refine ⟨fun p hp => np_interp_stored curve hchain p hp, ?_, ?_, ?_⟩
  · intro pre a b suf x hc hax hxb
    subst hc
    exact np_interp_between pre a b suf x hchain hax hxb
  · intro x p hp hx
    exact np_interp_below curve p x hp (le_of_lt hx)
  · intro x q hq hx
    exact np_interp_above curve q x hchain hq hx

/-- The example curve of the spec: maturities 1 and 5 with rates 2% and 3%. -/
def exCurve : List (ℚ × ℚ) := [(1, 0.02), (5, 0.03)]

/-- C6 witness: the interpolation theorem applied to the curve
{(1, 0.02), (5, 0.03)} yields rate(1) = 0.02, rate(3) = 0.025 and
rate(10) = 0.03. -/
theorem interpolate_rate_spec_witness :
    List.Chain' (fun u v : ℚ × ℚ => u.1 < v.1) exCurve ∧ 2 ≤ exCurve.length ∧
      interpolate_rate (1 : ℚ) exCurve = 0.02 ∧
      interpolate_rate (3 : ℚ) exCurve = 0.025 ∧
      interpolate_rate (10 : ℚ) exCurve = 0.03 := by
  have hchain : List.Chain' (fun u v : ℚ × ℚ => u.1 < v.1) exCurve := by
    simp only [exCurve]
    exact List.chain'_pair.mpr (by norm_num)
  have h := @interpolate_rate_spec ℚ _ exCurve hchain (by simp [exCurve])
  refine ⟨hchain, by simp [exCurve], ?_, ?_, ?_⟩
  · simpa using h.1 (1, 0.02) (by simp [exCurve])
  · have h3 := h.2.1 [] (1, 0.02) (5, 0.03) [] 3 rfl (by norm_num) (by norm_num)
    rw [h3]
    norm_num
  · simpa using h.2.2.2 10 (5, 0.03) (by simp [exCurve]) (by norm_num)

/-! Percentile lemmas. -/

lemma pySort_sorted (l : List ℚ) : List.Sorted (· ≤ ·) (pySort l) :=
  List.sorted_insertionSort (· ≤ ·) l

lemma pySort_perm (l : List ℚ) : List.Perm (pySort l) l :=
  List.perm_insertionSort (· ≤ ·) l

lemma np_percentile_def (l : List ℚ) (q : ℚ) :
    np_percentile l q =
      (pySort l).getD ⌊q / 100 * (((pySort l).length : ℚ) - 1)⌋.toNat 0 +
        (q / 100 * (((pySort l).length : ℚ) - 1) -
          ⌊q / 100 * (((pySort l).length : ℚ) - 1)⌋) *
          ((pySort l).getD ⌈q / 100 * (((pySort l).length : ℚ) - 1)⌉.toNat 0 -
            (pySort l).getD ⌊q / 100 * (((pySort l).length : ℚ) - 1)⌋.toNat 0) := rfl

lemma sorted_getD_mono (s : List ℚ) (hs : List.Sorted (· ≤ ·) s) {i j : ℕ}
    (hij : i ≤ j) (hj : j < s.length) : s.getD i 0 ≤ s.getD j 0 := by
  have hi : i < s.length := lt_of_le_of_lt hij hj
  rw [List.getD_eq_getElem?_getD, List.getD_eq_getElem?_getD,
    List.getElem?_eq_getElem hi, List.getElem?_eq_getElem hj, Option.getD_some,
    Option.getD_some]
  simpa using hs.rel_get_of_le (show (⟨i, hi⟩ : Fin s.length) ≤ ⟨j, hj⟩ from hij)

/-- A non-empty data list always contains an element at or below its
`np.percentile` for any `q ∈ [0, 100]`: the percentile interpolates between
two order statistics, both at least the minimum. -/
lemma np_percentile_ge_min (l : List ℚ) (q : ℚ) (hne : l ≠ [])
    (hq0 : 0 ≤ q) (hq1 : q ≤ 100) :
    ∃ m ∈ l, m ≤ np_percentile l q := by
  rw [np_percentile_def]
  set s := pySort l with hs
  have hperm : List.Perm s l := pySort_perm l
  have hsort : List.Sorted (· ≤ ·) s := pySort_sorted l
  have hspos : 0 < s.length := by
    rw [hperm.length_eq]
    exact List.length_pos.mpr hne
  set r := q / 100 * ((s.length : ℚ) - 1) with hrdef
  have hn1 : (1 : ℚ) ≤ (s.length : ℚ) := by exact_mod_cast hspos
  have hr0 : 0 ≤ r := by
    rw [hrdef]
    apply mul_nonneg (div_nonneg hq0 (by norm_num))
    linarith
  have hr1 : r ≤ (s.length : ℚ) - 1 := by
    rw [hrdef]
    have hq100 : q / 100 ≤ 1 := (div_le_one (by norm_num)).mpr hq1
    nlinarith
  have hceil_le : ⌈r⌉ ≤ (s.length : ℤ) - 1 := by
    rw [Int.ceil_le]
    push_cast
    linarith
  have hhi_lt : ⌈r⌉.toNat < s.length := by
    have h1 : ⌈r⌉.toNat ≤ ((s.length : ℤ) - 1).toNat := Int.toNat_le_toNat hceil_le
    omega
  have hlohi : ⌊r⌋.toNat ≤ ⌈r⌉.toNat := Int.toNat_le_toNat (Int.floor_le_ceil r)
  have hlo_lt : ⌊r⌋.toNat < s.length := lt_of_le_of_lt hlohi hhi_lt
  have h0lo : s.getD 0 0 ≤ s.getD ⌊r⌋.toNat 0 :=
    sorted_getD_mono s hsort (Nat.zero_le _) hlo_lt
  have hlo_hi : s.getD ⌊r⌋.toNat 0 ≤ s.getD ⌈r⌉.toNat 0 :=
    sorted_getD_mono s hsort hlohi hhi_lt
  have hfrac : 0 ≤ r - (⌊r⌋ : ℚ) := sub_nonneg.mpr (Int.floor_le r)
  refine ⟨s.getD 0 0, ?_, ?_⟩
  · have hg : s.getD 0 0 = s.get ⟨0, hspos⟩ := by
      rw [List.getD_eq_getElem?_getD, List.getElem?_eq_getElem hspos, Option.getD_some]
      simp
    exact hperm.mem_iff.mp (hg ▸ List.get_mem s 0 hspos)
  · have hmul : 0 ≤ (r - (⌊r⌋ : ℚ)) * (s.getD ⌈r⌉.toNat 0 - s.getD ⌊r⌋.toNat 0) :=
      mul_nonneg hfrac (sub_nonneg.mpr hlo_hi)
    linarith

lemma pySort_example :
    pySort [(-100 : ℚ), -50, 0, 50, 100] = [(-100 : ℚ), -50, 0, 50, 100] := by decide

lemma var_example : calculate_var [(-100 : ℚ), -50, 0, 50, 100] 0.8 = -60 := by
  have hfloor : ⌊(4 : ℚ) / 5⌋ = 0 := by norm_num
  have hceil : ⌈(4 : ℚ) / 5⌉ = 1 := by
    rw [Int.ceil_eq_iff]
    constructor <;> norm_num
  have hrank : (1 - (0.8 : ℚ)) * 100 / 100 *
      (((pySort [(-100 : ℚ), -50, 0, 50, 100]).length : ℚ) - 1) = 4 / 5 := by
    rw [pySort_example]
    norm_num
  show np_percentile [(-100 : ℚ), -50, 0, 50, 100] ((1 - 0.8) * 100) = -60
  rw [np_percentile_def, hrank, pySort_example, hfloor, hceil]
  norm_num

lemma cvar_example : calculate_cvar [(-100 : ℚ), -50, 0, 50, 100] 0.8 = -100 := by
  have hfil : List.filter (fun x => decide (x ≤ (-60 : ℚ)))
      [(-100 : ℚ), -50, 0, 50, 100] = [-100] := by decide
  simp only [calculate_cvar, var_example]
  rw [hfil]
  norm_num [listMean]

/-- C7: for every non-empty distribution and confidence strictly between 0
and 1, `calculate_var` is the (1−c)-quantile under linear interpolation
between order statistics, `calculate_cvar` is the mean of the values at or
below that threshold (a set that is never empty); in particular on
[−100, −50, 0, 50, 100] at confidence 0.8 the VaR is −60 and the CVaR is
−100. -/
theorem calculate_var_cvar_spec (l : List ℚ) (c : ℚ)
    (hne : l ≠ []) (hc0 : 0 < c) (hc1 : c < 1) :
    calculate_var l c = quantileOrderStat l (1 - c) ∧
    calculate_cvar l c =
      listMean (l.filter (fun x => decide (x ≤ calculate_var l c))) ∧
    l.filter (fun x => decide (x ≤ calculate_var l c)) ≠ [] ∧
    calculate_var [-100, -50, 0, 50, 100] 0.8 = -60 ∧
    calculate_cvar [-100, -50, 0, 50, 100] 0.8 = -100 := by
  refine ⟨?_, rfl, ?_, var_example, cvar_example⟩
  · simp only [calculate_var, np_percentile, quantileOrderStat]
    have h100 : (1 - c) * 100 / 100 = 1 - c := by ring
    rw [h100]
  · obtain ⟨m, hml, hmvar⟩ := np_percentile_ge_min l ((1 - c) * 100) hne
      (by nlinarith) (by nlinarith)
    refine List.ne_nil_of_mem (List.mem_filter.mpr ⟨hml, ?_⟩)
    simpa only [calculate_var, decide_eq_true_eq] using hmvar

/-- C7 witness: the theorem applied to the spec's example vector at
confidence 0.8. -/
theorem calculate_var_cvar_spec_witness :
    ([(-100 : ℚ), -50, 0, 50, 100] ≠ []) ∧ (0 : ℚ) < 0.8 ∧ (0.8 : ℚ) < 1 ∧
      calculate_var [(-100 : ℚ), -50, 0, 50, 100] 0.8 =
        quantileOrderStat [(-100 : ℚ), -50, 0, 50, 100] (1 - 0.8) := by
  refine ⟨by simp, by norm_num, by norm_num, ?_⟩
  exact (calculate_var_cvar_spec [(-100 : ℚ), -50, 0, 50, 100] 0.8 (by simp)
    (by norm_num) (by norm_num)).1

/-! Hedge-valuation lemmas. -/

lemma optionHedge_premium_zero (fx_spot : ℝ) (vols : List (ℝ × ℝ)) :
    ∀ (sched : List (ℤ × ℝ)), (∀ p ∈ sched, p.2 ≤ 0) →
      optionHedge_premium fx_spot vols sched = 0
  | [], _ => rfl
  | fc :: rest, hneg => by
      have hfc : fc.2 ≤ 0 := hneg fc (List.mem_cons_self fc rest)
      have ih := optionHedge_premium_zero fx_spot vols rest
        (fun p hp => hneg p (List.mem_cons_of_mem fc hp))
      simp only [optionHedge_premium, List.foldr_cons] at ih ⊢
      rw [if_neg (not_lt.mpr hfc), ih, zero_add]

lemma collarHedge_net_cost_zero (spot : ℝ) (vols : List (ℝ × ℝ)) (pl cl : ℝ) :
    ∀ (cfs : List (ℤ × ℝ)), (∀ p ∈ cfs, p.2 ≤ 0) →
      collarHedge_net_cost spot vols cfs pl cl = 0
  | [], _ => rfl
  | fc :: rest, hneg => by
      have hfc : fc.2 ≤ 0 := hneg fc (List.mem_cons_self fc rest)
      have ih := collarHedge_net_cost_zero spot vols pl cl rest
        (fun p hp => hneg p (List.mem_cons_of_mem fc hp))
      simp only [collarHedge_net_cost, List.foldr_cons] at ih ⊢
      rw [if_neg (not_lt.mpr hfc), ih, zero_add]

lemma optionHedge_hedge_go_nonpos (fx_spot : ℝ) (fx : ℤ → Option (ℕ → ℝ)) :
    ∀ (sched : List (ℤ × ℝ)) (acc : ℕ → ℝ),
      (∀ p ∈ sched, p.2 ≤ 0) → (∀ p ∈ sched, (fx p.1).isSome) →
      optionHedge_hedge_go fx_spot fx sched acc =
        Except.ok (fun n => acc n + npvSignedSum fx sched n)
  | [], acc, _, _ => by
      simp only [optionHedge_hedge_go, npvSignedSum]
      exact congrArg Except.ok (funext fun n => (add_zero (acc n)).symm)
  | fc :: rest, acc, hneg, hpres => by
      have hfc : fc.2 ≤ 0 := hneg fc (List.mem_cons_self fc rest)
      obtain ⟨rates, hrates⟩ :=
        Option.isSome_iff_exists.mp (hpres fc (List.mem_cons_self fc rest))
      have hif : (if 0 < fc.2 then (fun n => fc.2 * max (rates n) fx_spot)
          else fun n => fc.2 * rates n) = fun n => fc.2 * rates n :=
        if_neg (not_lt.mpr hfc)
      have ih := optionHedge_hedge_go_nonpos fx_spot fx rest
        (fun n => acc n + fc.2 * rates n *
          Real.exp (-(interpolate_rate ((fc.1 : ℝ) / 365.25) USD_RATES) *
            ((fc.1 : ℝ) / 365.25)))
        (fun p hp => hneg p (List.mem_cons_of_mem fc hp))
        (fun p hp => hpres p (List.mem_cons_of_mem fc hp))
      simp only [optionHedge_hedge_go, hrates, hif]
      rw [ih]
      refine congrArg Except.ok (funext fun n => ?_)
      simp only [npvSignedSum, hrates, Option.getD_some]
      ring

lemma collarHedge_hedge_go_nonpos (put_strike call_strike : ℝ)
    (fx : ℤ → Option (ℕ → ℝ)) :
    ∀ (cfs : List (ℤ × ℝ)) (acc : ℕ → ℝ),
      (∀ p ∈ cfs, p.2 ≤ 0) → (∀ p ∈ cfs, (fx p.1).isSome) →
      collarHedge_hedge_go put_strike call_strike fx cfs acc =
        Except.ok (fun n => acc n + npvSignedSum fx cfs n)
  | [], acc, _, _ => by
      simp only [collarHedge_hedge_go, npvSignedSum]
      exact congrArg Except.ok (funext fun n => (add_zero (acc n)).symm)
  | fc :: rest, acc, hneg, hpres => by
      have hfc : fc.2 ≤ 0 := hneg fc (List.mem_cons_self fc rest)
      obtain ⟨rates, hrates⟩ :=
        Option.isSome_iff_exists.mp (hpres fc (List.mem_cons_self fc rest))
      have hif : (if 0 < fc.2 then
            (fun n => fc.2 * min (max (rates n) put_strike) call_strike)
          else fun n => fc.2 * rates n) = fun n => fc.2 * rates n :=
        if_neg (not_lt.mpr hfc)
      have ih := collarHedge_hedge_go_nonpos put_strike call_strike fx rest
        (fun n => acc n + fc.2 * rates n *
          Real.exp (-(interpolate_rate ((fc.1 : ℝ) / 365.25) USD_RATES) *
            ((fc.1 : ℝ) / 365.25)))
        (fun p hp => hneg p (List.mem_cons_of_mem fc hp))
        (fun p hp => hpres p (List.mem_cons_of_mem fc hp))
      simp only [collarHedge_hedge_go, hrates, hif]
      rw [ih]
      refine congrArg Except.ok (funext fun n => ?_)
      simp only [npvSignedSum, hrates, Option.getD_some]
      ring

/-- One-flow schedule with a negative notional only: the outflow of the
configured schedule, scaled to −1. -/
def schedCx : List (ℤ × ℝ) := [(61, -1)]

/-- Scenario mapping in which every date is present, with constant unit
rate vectors. -/
def fxCx : ℤ → Option (ℕ → ℝ) := fun _ => some (fun _ => 1)

/-- C9 counterexample: on the one-flow schedule `[(61 days, −1)]` (no
positive notional) with every date present in the scenario mapping,
`calculate_npv` raises `TypeError` — it returns no NPV vector at all — while
`OptionHedge.hedge` and `CollarHedge.hedge` both return `ok` results, so
neither hedge returns the same NPV vector as the unhedged `calculate_npv`. -/
theorem hedge_ne_calculate_npv :
    calculate_npv fxCx schedCx = Except.error PyErr.typeError ∧
    optionHedge_hedge 1 [] schedCx fxCx ≠ calculate_npv fxCx schedCx ∧
    collarHedge_hedge 1 [] schedCx 0.95 1.05 fxCx ≠ calculate_npv fxCx schedCx := by
  have hneg : ∀ p ∈ schedCx, p.2 ≤ 0 := by
    intro p hp
    simp only [schedCx, List.mem_singleton] at hp
    subst hp
    norm_num
  have hpres : ∀ p ∈ schedCx, (fxCx p.1).isSome := fun p _ => rfl
  have hnpv : calculate_npv fxCx schedCx = Except.error PyErr.typeError := rfl
  refine ⟨hnpv, ?_, ?_⟩
  · intro hcontra
    rw [hnpv] at hcontra
    have h1 := optionHedge_hedge_go_nonpos 1 fxCx schedCx (fun _ => 0) hneg hpres
    simp only [optionHedge_hedge, h1, Except.map] at hcontra
    exact Except.noConfusion hcontra
  · intro hcontra
    rw [hnpv] at hcontra
    have h1 := collarHedge_hedge_go_nonpos (1 * 0.95) (1 * 1.05) fxCx schedCx
      (fun _ => 0) hneg hpres
    simp only [collarHedge_hedge, h1, Except.map] at hcontra
    exact Except.noConfusion hcontra

/-- C9 amended: when no notional is positive (so no payoff transform applies
and every premium/net cost is 0) and every cash-flow date is present in the
scenario mapping, `OptionHedge.hedge` and `CollarHedge.hedge` agree with
each other: both return the signed discounted sum `Σ notional × rate ×
e^(−r·t)` with `r` the USD-curve rate at `t = days/365.25`.  The unhedged
`calculate_npv` cannot serve as the reference point of the comparison: it
raises `TypeError` on every non-empty schedule (see the counterexample), and
its day-count (365.0) differs from the hedges' (365.25) besides. -/
theorem hedges_agree_on_nonpositive (fx_spot : ℝ) (vols volsC : List (ℝ × ℝ))
    (sched : List (ℤ × ℝ)) (fx : ℤ → Option (ℕ → ℝ))
    (hneg : ∀ p ∈ sched, p.2 ≤ 0) (hpres : ∀ p ∈ sched, (fx p.1).isSome) :
    optionHedge_hedge fx_spot vols sched fx = Except.ok (npvSignedSum fx sched) ∧
    collarHedge_hedge fx_spot volsC sched 0.95 1.05 fx =
      Except.ok (npvSignedSum fx sched) := by
  constructor
  · simp only [optionHedge_hedge, optionHedge_premium_zero fx_spot vols sched hneg,
      optionHedge_hedge_go_nonpos fx_spot fx sched (fun _ => 0) hneg hpres, Except.map]
    exact congrArg Except.ok (funext fun n => by simp)
  · simp only [collarHedge_hedge,
      collarHedge_net_cost_zero fx_spot volsC 0.95 1.05 sched hneg,
      collarHedge_hedge_go_nonpos (fx_spot * 0.95) (fx_spot * 1.05) fx sched
        (fun _ => 0) hneg hpres, Except.map]
    exact congrArg Except.ok (funext fun n => by simp)

/-- C9 amended witness: the amended theorem applied to the one-flow schedule
with negative notional and the all-present scenario mapping. -/
theorem hedges_agree_on_nonpositive_witness :
    (∀ p ∈ schedCx, p.2 ≤ 0) ∧ (∀ p ∈ schedCx, (fxCx p.1).isSome) ∧
      optionHedge_hedge 1 [] schedCx fxCx = Except.ok (npvSignedSum fxCx schedCx) ∧
      collarHedge_hedge 1 [] schedCx 0.95 1.05 fxCx =
        Except.ok (npvSignedSum fxCx schedCx) := by
  have hneg : ∀ p ∈ schedCx, p.2 ≤ 0 := by
    intro p hp
    simp only [schedCx, List.mem_singleton] at hp
    subst hp
    norm_num
  have hpres : ∀ p ∈ schedCx, (fxCx p.1).isSome := fun p _ => rfl
  have h := hedges_agree_on_nonpositive 1 [] [] schedCx fxCx hneg hpres
  exact ⟨hneg, hpres, h.1, h.2⟩

end FxCase
